import Mathlib

/-!
Shallow embedding of the `event` package (itchyny/event-go) in Lean 4.

The package is an in-process, type-routed event dispatch engine:

  type Type int
  type Event interface { Type() Type }
  type Subscriber interface { Handle(context.Context, Event) error }
  type Publisher interface { Subscriber; Publish(context.Context, Event) error }

with combinators `Func`, `Ordered`, `Async`, `Limited`, publisher `Mapping`,
and the deferring publisher `Buffer`.

Modelling choices:
* `Go error` values become `Option Err` with `Err := Nat`; `none` is Go `nil`.
* A subscriber's side effects are made explicit by threading a state of an
  arbitrary type `σ` through `Handle`; a leaf subscriber is an arbitrary
  function `Ctx → Event → σ → σ × Option Err`.
* `context.Context` becomes a record `Ctx` carrying the only two observations
  the package ever makes of a context: whether `ctx.Done()` is ready and what
  `ctx.Err()` returns then.
* Concurrency (`Async`, `Limited` under multiple callers) is modelled by
  explicit nondeterminism: an observation order that is a permutation of the
  member results for `Async`, and a labelled transition system for the
  semaphore of `Limited`.
-/

namespace EventGo

/-- Go: `type Type int` — the event type used as the routing key. -/
abbrev EType := Int

/-- Model of Go `error` values; `Option Err` with `none` as Go `nil`. -/
abbrev Err := Nat

/-- The two observations the package makes of a `context.Context`:
whether the done channel is closed (cancellation/deadline fired),
and the error `ctx.Err()` reports in that case. -/
structure Ctx where
  cancelled : Bool
  ctxErr : Err
deriving DecidableEq, Repr

/-- Go: `type Event interface { Type() Type }`. The core never inspects
payloads, but we carry one so that distinct events are distinguishable. -/
structure Event where
  ty : EType
  payload : Int
deriving DecidableEq, Repr

/-- An event handler with explicit state: the Go signature
`Handle(context.Context, Event) error` over mutable ambient state `σ`. -/
abbrev Handler (σ : Type) := Ctx → Event → σ → σ × Option Err

/-- Go `err = e` under `if e != nil`: the new error overwrites the recorded
one only when it is non-nil. -/
def override (old e : Option Err) : Option Err :=
  match e with
  | some e => some e
  | none => old

/-- Sequential subscribers, as stored inside a `Mapping`: a leaf (any
non-`Ordered` subscriber, its behaviour given by an arbitrary handler
function) or an `Ordered` list.  The registration-time type switch in
`Mapping.On` distinguishes exactly these two cases. -/
inductive Sub (σ : Type) where
  | leaf : Handler σ → Sub σ
  | ordered : List (Sub σ) → Sub σ

mutual

/-- Go: `func (sub Ordered) Handle(ctx, ev) error` (and dynamic dispatch for
a leaf).  For `Ordered`:
```
var err error
for _, sub := range sub {
  if e := sub.Handle(ctx, ev); e != nil { err = e }
}
return err
``` -/
def Sub.Handle {σ : Type} : Sub σ → Ctx → Event → σ → σ × Option Err
  | .leaf f, ctx, ev, s => f ctx ev s
  | .ordered subs, ctx, ev, s => Sub.handleList subs ctx ev s none

/-- The loop body of `Ordered.Handle`: run the remaining members in order,
threading the state and the recorded error. -/
def Sub.handleList {σ : Type} : List (Sub σ) → Ctx → Event → σ → Option Err → σ × Option Err
  | [], _, _, s, err => (s, err)
  | sub :: rest, ctx, ev, s, err =>
    let r := Sub.Handle sub ctx ev s
    Sub.handleList rest ctx ev r.1 (override err r.2)

end

/-- Reference run used to state claims about `Ordered`: invoke every member
in order, unconditionally, returning the final state and the list of every
member's returned error in invocation order. -/
def runAll {σ : Type} : List (Sub σ) → Ctx → Event → σ → σ × List (Option Err)
  | [], _, _, s => (s, [])
  | sub :: rest, ctx, ev, s =>
    let r := Sub.Handle sub ctx ev s
    let q := runAll rest ctx ev r.1
    (q.1, r.2 :: q.2)

/-- The last non-`nil` entry of a list of error results, or `none`. -/
def lastErr (l : List (Option Err)) : Option Err :=
  (l.filterMap id).getLast?

lemma override_none (old : Option Err) : override old none = old := rfl

lemma lastErr_nil : lastErr [] = none := rfl

lemma lastErr_cons (e : Option Err) (l : List (Option Err)) :
    lastErr (e :: l) = override (override none e) (lastErr l) := by
  cases e with
  | none =>
    simp only [lastErr, List.filterMap_cons, id, override]
    cases h : (l.filterMap id).getLast? with
    | none => simp [override]
    | some x => simp [override]
  | some x =>
    simp only [lastErr, List.filterMap_cons, id]
    cases h : (l.filterMap id) with
    | nil => simp [h, override]
    | cons y ys =>
      rw [List.getLast?_cons_cons]
      cases hg : (y :: ys).getLast? with
      | none => simp at hg
      | some z => simp [override]

lemma handleList_acc {σ : Type} (subs : List (Sub σ)) (ctx : Ctx) (ev : Event)
    (s : σ) (err : Option Err) :
    Sub.handleList subs ctx ev s err =
      ((runAll subs ctx ev s).1, override err (lastErr (runAll subs ctx ev s).2)) := by
  induction subs generalizing s err with
  | nil => simp [Sub.handleList, runAll, lastErr, override]
  | cons sub rest ih =>
    simp only [Sub.handleList, runAll]
    rw [ih]
    congr 1
    rw [lastErr_cons]
    cases (Sub.Handle sub ctx ev s).2 with
    | none =>
      cases lastErr (runAll rest ctx ev (Sub.Handle sub ctx ev s).1).2 with
      | none => rfl
      | some x => rfl
    | some e =>
      cases lastErr (runAll rest ctx ev (Sub.Handle sub ctx ev s).1).2 with
      | none => rfl
      | some x => rfl

/-- Go: `var Discard Func` — the zero value of `Func`, which is a nil
function value. -/
def Discard {σ : Type} : Option (Handler σ) := none

/-- Go:
```
func (sub Func) Handle(ctx context.Context, ev Event) error {
  if sub == nil { return nil }
  return sub(ctx, ev)
}
```
A `Func` is a nil-able function value, hence `Option (Handler σ)`. -/
def Func.Handle {σ : Type} (sub : Option (Handler σ)) (ctx : Ctx) (ev : Event)
    (s : σ) : σ × Option Err :=
  match sub with
  | none => (s, none)
  | some f => f ctx ev s

/-- Go: `type Mapping map[Type]Subscriber`, modelled as a lookup function
(a Go map has at most one value per key). -/
abbrev Mapping (σ : Type) := EType → Option (Sub σ)

/-- Go: `func NewMapping() Mapping { return make(Mapping) }`. -/
def NewMapping {σ : Type} : Mapping σ := fun _ => none

/-- Go:
```
func (pub Mapping) On(typ Type, sub Subscriber) Mapping {
  if s, ok := pub[typ]; ok {
    if o, ok := s.(Ordered); ok { pub[typ] = append(o, sub) }
    else { pub[typ] = Ordered{s, sub} }
  } else { pub[typ] = sub }
  return pub
}
``` -/
def Mapping.On {σ : Type} (pub : Mapping σ) (typ : EType) (sub : Sub σ) : Mapping σ :=
  fun t =>
    if t = typ then
      some (match pub typ with
        | some (Sub.ordered o) => Sub.ordered (o ++ [sub])
        | some s => Sub.ordered [s, sub]
        | none => sub)
    else pub t

/-- Go:
```
func (pub Mapping) Publish(ctx context.Context, ev Event) error {
  if sub, ok := pub[ev.Type()]; ok { return sub.Handle(ctx, ev) }
  return nil
}
``` -/
def Mapping.Publish {σ : Type} (pub : Mapping σ) (ctx : Ctx) (ev : Event)
    (s : σ) : σ × Option Err :=
  match pub ev.ty with
  | some sub => sub.Handle ctx ev s
  | none => (s, none)

/-- Go: `func (pub Mapping) Handle(ctx, ev) error { return pub.Publish(ctx, ev) }`. -/
def Mapping.Handle {σ : Type} (pub : Mapping σ) : Ctx → Event → σ → σ × Option Err :=
  Mapping.Publish pub

/-- C1: `Ordered.Handle` invokes every member in construction order with no
short-circuit — its final state is the state of the reference run `runAll`
that unconditionally invokes every member in order — and it returns the
error of the member that failed last in sequence (`lastErr` of the errors of
that run), or `nil` if no member failed; the empty `Ordered` returns `nil`
and leaves the state untouched. -/
theorem ordered_handle_all_members_last_error_wins {σ : Type}
    (subs : List (Sub σ)) (ctx : Ctx) (ev : Event) (s : σ) :
    Sub.Handle (Sub.ordered subs) ctx ev s =
      ((runAll subs ctx ev s).1, lastErr (runAll subs ctx ev s).2)
    ∧ Sub.Handle (Sub.ordered ([] : List (Sub σ))) ctx ev s = (s, none) := by
  constructor
  · rw [Sub.Handle, handleList_acc]
    cases lastErr (runAll subs ctx ev s).2 with
    | none => rfl
    | some e => rfl
  · rfl

/-- C9: invoking `Handle` on the nil `Func` — including `Discard`, which is
definitionally the nil `Func` — is a successful no-op returning `nil` with
the state untouched; on a non-nil `Func` it returns exactly what the
underlying callable returns. -/
theorem func_handle_nil_noop_and_passthrough {σ : Type} (ctx : Ctx) (ev : Event) (s : σ) :
    Func.Handle (σ := σ) none ctx ev s = (s, none)
    ∧ Func.Handle (σ := σ) Discard ctx ev s = (s, none)
    ∧ Discard (σ := σ) = none
    ∧ ∀ f : Handler σ, Func.Handle (some f) ctx ev s = f ctx ev s := by
  exact ⟨rfl, rfl, rfl, fun f => rfl⟩

/-- C3: `Mapping.On` stores the first registration for a `Type` verbatim;
a subsequent registration wraps an existing single (non-`Ordered`)
subscriber into `Ordered{old, new}`, or appends to an existing `Ordered`,
preserving registration order; other types are untouched (the `Type` still
maps to at most one top-level subscriber, and the result is the updated
registry itself). -/
theorem mapping_on_folds_registrations {σ : Type} (pub : Mapping σ)
    (typ : EType) (sub : Sub σ) :
    (pub typ = none → Mapping.On pub typ sub typ = some sub)
    ∧ (∀ o, pub typ = some (Sub.ordered o) →
        Mapping.On pub typ sub typ = some (Sub.ordered (o ++ [sub])))
    ∧ (∀ f, pub typ = some (Sub.leaf f) →
        Mapping.On pub typ sub typ = some (Sub.ordered [Sub.leaf f, sub]))
    ∧ ∀ t, t ≠ typ → Mapping.On pub typ sub t = pub t := by
  refine ⟨fun h => ?_, fun o h => ?_, fun f h => ?_, fun t ht => ?_⟩
  · simp [Mapping.On, h]
  · simp [Mapping.On, h]
  · simp [Mapping.On, h]
  · simp [Mapping.On, ht]

/-- Witness for C3 at concrete registries: a fresh type stores the
subscriber verbatim, a second registration folds into `Ordered`, a third
appends, and an unrelated type is untouched. -/
theorem mapping_on_folds_registrations_witness :
    (Mapping.On (σ := Unit) NewMapping 0 (Sub.ordered []) 0 = some (Sub.ordered []))
    ∧ (Mapping.On (σ := Unit) (fun t => if t = 0 then some (Sub.ordered []) else none)
        0 (Sub.ordered [Sub.ordered []]) 0
        = some (Sub.ordered [Sub.ordered [Sub.ordered []]]))
    ∧ (Mapping.On (σ := Unit) (fun t => if t = 0 then some (Sub.leaf (fun _ _ s => (s, none))) else none)
        0 (Sub.ordered []) 0
        = some (Sub.ordered [Sub.leaf (fun _ _ s => (s, none)), Sub.ordered []]))
    ∧ (Mapping.On (σ := Unit) NewMapping 0 (Sub.ordered []) 1 = NewMapping 1) := by
  refine ⟨?_, ?_, ?_, ?_⟩
  · exact (mapping_on_folds_registrations NewMapping 0 (Sub.ordered [])).1 rfl
  · exact (mapping_on_folds_registrations _ 0 _).2.1 [] rfl
  · exact (mapping_on_folds_registrations _ 0 _).2.2.1 (fun _ _ s => (s, none)) rfl
  · exact (mapping_on_folds_registrations NewMapping 0 (Sub.ordered [])).2.2.2 1 (by decide)

/-- C4: `Mapping.Publish` on an event whose type is unregistered returns
`nil` and invokes no subscriber (the state is untouched); on a registered
type it delegates to the registered subscriber and returns exactly what
that subscriber's `Handle` returns (state change included).  `Mapping.Handle`
is `Publish`. -/
theorem mapping_publish_lookup_delegates {σ : Type} (pub : Mapping σ)
    (ctx : Ctx) (ev : Event) (s : σ) :
    (pub ev.ty = none → Mapping.Publish pub ctx ev s = (s, none))
    ∧ (∀ sub, pub ev.ty = some sub →
        Mapping.Publish pub ctx ev s = sub.Handle ctx ev s)
    ∧ Mapping.Handle pub ctx ev s = Mapping.Publish pub ctx ev s := by
  refine ⟨fun h => ?_, fun sub h => ?_, rfl⟩
  · simp [Mapping.Publish, h]
  · simp [Mapping.Publish, h]

/-- Witness for C4: in a registry with only type `0` registered (to a leaf
failing with error `7` after pushing the event), publishing a type-`1` event
returns `nil` and records nothing, and publishing a type-`0` event returns
exactly the subscriber's result. -/
theorem mapping_publish_lookup_delegates_witness :
    (Mapping.Publish
        (Mapping.On (σ := List Event) NewMapping 0
          (Sub.leaf (fun _ ev s => (s ++ [ev], some 7))))
        ⟨false, 0⟩ ⟨1, 5⟩ [] = ([], none))
    ∧ (Mapping.Publish
        (Mapping.On (σ := List Event) NewMapping 0
          (Sub.leaf (fun _ ev s => (s ++ [ev], some 7))))
        ⟨false, 0⟩ ⟨0, 5⟩ [] = ([⟨0, 5⟩], some 7)) := by
  constructor
  · exact (mapping_publish_lookup_delegates _ ⟨false, 0⟩ ⟨1, 5⟩ []).1 rfl
  · exact (mapping_publish_lookup_delegates _ ⟨false, 0⟩ ⟨0, 5⟩ []).2.1
      (Sub.leaf (fun _ ev s => (s ++ [ev], some 7))) rfl

/-- Go:
```
type Buffer struct {
  publisher Publisher
  events    []Event
}
```
The downstream publisher is modelled abstractly: forwarding one event may
mutate the downstream state `σ`, re-entrantly publish events back into this
buffer (each `Buffer.Publish` appends to the queue's tail, so the model
returns the list of re-entrantly published events in call order), and
return an error. -/
structure Buffer (σ : Type) where
  publisher : Ctx → Event → σ → σ × List Event × Option Err
  events : List Event

/-- Go:
```
func (pub *Buffer) Publish(_ context.Context, ev Event) error {
  pub.events = append(pub.events, ev)
  return nil
}
```
The downstream state `σ` is threaded through to make "no delivery happens
here" an explicit conclusion rather than a typing accident. -/
def Buffer.Publish {σ : Type} (pub : Buffer σ) (_ : Ctx) (ev : Event) (s : σ) :
    (Buffer σ × σ) × Option Err :=
  ((⟨pub.publisher, pub.events ++ [ev]⟩, s), none)

/-- Go: `func (pub *Buffer) Handle(ctx, ev) error { return pub.Publish(ctx, ev) }`. -/
def Buffer.Handle {σ : Type} (pub : Buffer σ) : Ctx → Event → σ → (Buffer σ × σ) × Option Err :=
  Buffer.Publish pub

/-- One forwarding step of `Buffer.Dispatch`, as recorded in the run trace:
the event forwarded to the downstream publisher, the events the downstream
re-entrantly published into the buffer while handling it, and the error the
forwarding returned. -/
structure Fwd where
  ev : Event
  pubbed : List Event
  err : Option Err
deriving DecidableEq, Repr

/-- The loop of Go:
```
func (pub *Buffer) Dispatch(ctx context.Context) error {
  var (ev Event; err error)
  for len(pub.events) != 0 {
    ev, pub.events = pub.events[0], pub.events[1:]
    if e := pub.publisher.Publish(ctx, ev); e != nil { err = e }
  }
  return err
}
```
The loop need not terminate (the downstream may publish forever), so the
model takes fuel; `none` means the fuel ran out before the queue emptied.
On success it returns the final downstream state, the recorded error, and
the trace of forwardings in order. -/
def Buffer.dispatchAux {σ : Type}
    (publish : Ctx → Event → σ → σ × List Event × Option Err) :
    Nat → Ctx → List Event → σ → Option Err → Option (σ × Option Err × List Fwd)
  | _, _, [], s, err => some (s, err, [])
  | 0, _, _ :: _, _, _ => none
  | n + 1, ctx, ev :: rest, s, err =>
    let r := publish ctx ev s
    match Buffer.dispatchAux publish n ctx (rest ++ r.2.1) r.1 (override err r.2.2) with
    | none => none
    | some (s', e', tr) => some (s', e', ⟨ev, r.2.1, r.2.2⟩ :: tr)

/-- Go `Buffer.Dispatch`, starting from `var err error` (nil) and the
buffer's queue; the loop exits exactly when the queue is empty, so on
success the buffer's queue is empty. -/
def Buffer.Dispatch {σ : Type} (pub : Buffer σ) (fuel : Nat) (ctx : Ctx) (s : σ) :
    Option ((Buffer σ × σ) × Option Err × List Fwd) :=
  match Buffer.dispatchAux pub.publisher fuel ctx pub.events s none with
  | none => none
  | some (s', err, tr) => some ((⟨pub.publisher, []⟩, s'), err, tr)

lemma override_none_left (a b : Option Err) : override a (override none b) = override a b := by
  cases b <;> rfl

lemma override_assoc (a b c : Option Err) :
    override (override a b) c = override a (override b c) := by
  cases c <;> cases b <;> rfl

lemma dispatchAux_spec {σ : Type}
    (publish : Ctx → Event → σ → σ × List Event × Option Err) (n : Nat) (ctx : Ctx) :
    ∀ (q : List Event) (s : σ) (err0 : Option Err)
      (s' : σ) (e' : Option Err) (tr : List Fwd),
      Buffer.dispatchAux publish n ctx q s err0 = some (s', e', tr) →
      tr.map Fwd.ev = q ++ (tr.map Fwd.pubbed).flatten
      ∧ e' = override err0 (lastErr (tr.map Fwd.err)) := by
  induction n with
  | zero =>
    intro q s err0 s' e' tr h
    cases q with
    | nil =>
      simp only [Buffer.dispatchAux, Option.some.injEq, Prod.mk.injEq] at h
      obtain ⟨h1, h2, h3⟩ := h
      subst h2 h3
      simp [lastErr, override]
    | cons ev rest => simp [Buffer.dispatchAux] at h
  | succ n ih =>
    intro q s err0 s' e' tr h
    cases q with
    | nil =>
      simp only [Buffer.dispatchAux, Option.some.injEq, Prod.mk.injEq] at h
      obtain ⟨h1, h2, h3⟩ := h
      subst h2 h3
      simp [lastErr, override]
    | cons ev rest =>
      simp only [Buffer.dispatchAux] at h
      cases hrec : Buffer.dispatchAux publish n ctx
          (rest ++ (publish ctx ev s).2.1) (publish ctx ev s).1
          (override err0 (publish ctx ev s).2.2) with
      | none => rw [hrec] at h; exact absurd h (by simp)
      | some res =>
        obtain ⟨s1, e1, tr1⟩ := res
        rw [hrec] at h
        simp only [Option.some.injEq, Prod.mk.injEq] at h
        obtain ⟨h1, h2, h3⟩ := h
        obtain ⟨ihev, iherr⟩ := ih _ _ _ _ _ _ hrec
        subst h1 h2
        subst h3
        constructor
        · simp only [List.map_cons, ihev]
          simp
        · rw [iherr, List.map_cons, lastErr_cons, ← override_assoc, override_none_left]

lemma override_none_right (e : Option Err) : override none e = e := by
  cases e <;> rfl

/-- C2: whenever `Buffer.Dispatch` returns (enough fuel for the Go loop to
exit), the buffer's queue is empty, the sequence of events forwarded to the
downstream publisher is exactly the initially queued events followed by the
events re-entrantly published during draining, in tail-append (FIFO) order
— so no forwarding is skipped on failure — and the returned error is the
last forwarding failure, or `nil` if none occurred. -/
theorem buffer_dispatch_fifo_reentrant_last_error_wins {σ : Type} (pub : Buffer σ)
    (fuel : Nat) (ctx : Ctx) (s : σ)
    (res : (Buffer σ × σ) × Option Err × List Fwd)
    (h : Buffer.Dispatch pub fuel ctx s = some res) :
    res.1.1.events = []
    ∧ res.1.1.publisher = pub.publisher
    ∧ res.2.2.map Fwd.ev = pub.events ++ (res.2.2.map Fwd.pubbed).flatten
    ∧ res.2.1 = lastErr (res.2.2.map Fwd.err) := by
  unfold Buffer.Dispatch at h
  cases haux : Buffer.dispatchAux pub.publisher fuel ctx pub.events s none with
  | none => rw [haux] at h; exact absurd h (by simp)
  | some r =>
    obtain ⟨s', err, tr⟩ := r
    rw [haux] at h
    simp only [Option.some.injEq] at h
    subst h
    obtain ⟨hev, herr⟩ := dispatchAux_spec pub.publisher fuel ctx _ _ _ _ _ _ haux
    exact ⟨rfl, rfl, hev, by rw [herr, override_none_right]⟩

/-- Downstream publisher used in the `Buffer` witness: it logs every event
it is forwarded; on a type-`1` event it re-entrantly publishes the event
`⟨3, 3⟩` back into the buffer; on a type-`3` event it fails with error `9`. -/
def demoPublish : Ctx → Event → List Event → List Event × List Event × Option Err :=
  fun _ ev s =>
    (s ++ [ev],
     if ev.ty = 1 then [⟨3, 3⟩] else [],
     if ev.ty = 3 then some 9 else none)

/-- A buffer over `demoPublish` with two queued events. -/
def demoBuffer : Buffer (List Event) :=
  ⟨demoPublish, [⟨0, 1⟩, ⟨1, 2⟩]⟩

/-- Witness for C2 at a concrete re-entrant run: dispatching `demoBuffer`
forwards `⟨0,1⟩`, `⟨1,2⟩` and then the re-entrantly published `⟨3,3⟩`, whose
failure `9` is returned. -/
theorem buffer_dispatch_fifo_reentrant_last_error_wins_witness :
    (((⟨demoPublish, []⟩ : Buffer (List Event)), ([⟨0, 1⟩, ⟨1, 2⟩, ⟨3, 3⟩] : List Event)),
        (some 9 : Option Err),
        ([⟨⟨0, 1⟩, [], none⟩, ⟨⟨1, 2⟩, [⟨3, 3⟩], none⟩, ⟨⟨3, 3⟩, [], some 9⟩] : List Fwd)).1.1.events = []
    ∧ (((⟨demoPublish, []⟩ : Buffer (List Event)), ([⟨0, 1⟩, ⟨1, 2⟩, ⟨3, 3⟩] : List Event)),
        (some 9 : Option Err),
        ([⟨⟨0, 1⟩, [], none⟩, ⟨⟨1, 2⟩, [⟨3, 3⟩], none⟩, ⟨⟨3, 3⟩, [], some 9⟩] : List Fwd)).1.1.publisher = demoBuffer.publisher
    ∧ (((⟨demoPublish, []⟩ : Buffer (List Event)), ([⟨0, 1⟩, ⟨1, 2⟩, ⟨3, 3⟩] : List Event)),
        (some 9 : Option Err),
        ([⟨⟨0, 1⟩, [], none⟩, ⟨⟨1, 2⟩, [⟨3, 3⟩], none⟩, ⟨⟨3, 3⟩, [], some 9⟩] : List Fwd)).2.2.map Fwd.ev
        = demoBuffer.events
          ++ ((((⟨demoPublish, []⟩ : Buffer (List Event)), ([⟨0, 1⟩, ⟨1, 2⟩, ⟨3, 3⟩] : List Event)),
            (some 9 : Option Err),
            ([⟨⟨0, 1⟩, [], none⟩, ⟨⟨1, 2⟩, [⟨3, 3⟩], none⟩, ⟨⟨3, 3⟩, [], some 9⟩] : List Fwd)).2.2.map Fwd.pubbed).flatten
    ∧ (((⟨demoPublish, []⟩ : Buffer (List Event)), ([⟨0, 1⟩, ⟨1, 2⟩, ⟨3, 3⟩] : List Event)),
        (some 9 : Option Err),
        ([⟨⟨0, 1⟩, [], none⟩, ⟨⟨1, 2⟩, [⟨3, 3⟩], none⟩, ⟨⟨3, 3⟩, [], some 9⟩] : List Fwd)).2.1
        = lastErr ((((⟨demoPublish, []⟩ : Buffer (List Event)), ([⟨0, 1⟩, ⟨1, 2⟩, ⟨3, 3⟩] : List Event)),
            (some 9 : Option Err),
            ([⟨⟨0, 1⟩, [], none⟩, ⟨⟨1, 2⟩, [⟨3, 3⟩], none⟩, ⟨⟨3, 3⟩, [], some 9⟩] : List Fwd)).2.2.map Fwd.err) :=
  buffer_dispatch_fifo_reentrant_last_error_wins demoBuffer 5 ⟨false, 0⟩ [] _ rfl

/-- C7: `Buffer.Publish` appends the event to the tail of the queue and
returns `nil` unconditionally, leaving the downstream publisher and its
state untouched (no delivery happens before `Dispatch`); `Buffer.Handle`
is `Publish`. -/
theorem buffer_publish_appends_returns_nil {σ : Type} (pub : Buffer σ)
    (ctx : Ctx) (ev : Event) (s : σ) :
    Buffer.Publish pub ctx ev s = ((⟨pub.publisher, pub.events ++ [ev]⟩, s), none)
    ∧ (Buffer.Publish pub ctx ev s).1.2 = s
    ∧ Buffer.Handle pub ctx ev s = Buffer.Publish pub ctx ev s :=
  ⟨rfl, rfl, rfl⟩

/-- C10: `Buffer.Publish` ignores its context argument entirely: any two
contexts give identical results, and even an already-cancelled context
still enqueues the event and returns `nil`. -/
theorem buffer_publish_ignores_context {σ : Type} (pub : Buffer σ)
    (ctx ctx' : Ctx) (ev : Event) (s : σ) :
    Buffer.Publish pub ctx ev s = Buffer.Publish pub ctx' ev s
    ∧ ∀ e : Err, Buffer.Publish pub ⟨true, e⟩ ev s
        = ((⟨pub.publisher, pub.events ++ [ev]⟩, s), none) :=
  ⟨rfl, fun _ => rfl⟩

/-- Go `sync.Once` guarding the error slot of `Async.Handle`:
`once.Do(func() { err = e })` writes only the first time; a completion with
a nil error does not call `once.Do` at all, which has the same effect as
this fold step. -/
def onceDo (acc e : Option Err) : Option Err :=
  match acc with
  | some a => some a
  | none => e

/-- Go:
```
func (sub Async) Handle(ctx context.Context, ev Event) error {
  var (wg sync.WaitGroup; once sync.Once; err error)
  wg.Add(len(sub))
  for _, sub := range sub {
    go func(sub Subscriber) {
      defer wg.Done()
      if e := sub.Handle(ctx, ev); e != nil { once.Do(func() { err = e }) }
    }(sub)
  }
  wg.Wait()
  return err
}
```
One goroutine per member; `wg.Wait` joins them all, so every member's
completion is observed exactly once before return.  The scheduler's
interleaving is explicit: `obs` is the members' results in the order their
completions reach the `once` (any permutation of the member results), and
the error slot keeps the first failure in that order. -/
def Async.Handle (obs : List (Option Err)) : Option Err :=
  obs.foldl onceDo none

/-- The first non-`nil` entry of a list of error results, or `none`. -/
def firstErr (l : List (Option Err)) : Option Err :=
  (l.filterMap id).head?

lemma foldl_onceDo_some (l : List (Option Err)) (a : Err) :
    l.foldl onceDo (some a) = some a := by
  induction l with
  | nil => rfl
  | cons e rest ih => simpa [onceDo] using ih

lemma async_handle_eq_firstErr (obs : List (Option Err)) :
    Async.Handle obs = firstErr obs := by
  induction obs with
  | nil => rfl
  | cons e rest ih =>
    cases e with
    | none => simpa [Async.Handle, onceDo, firstErr] using ih
    | some x =>
      simp [Async.Handle, onceDo, firstErr, foldl_onceDo_some]

/-- C5: `Async.Handle` joins every member exactly once (the observed
completions `obs` are a permutation of all the member results); it returns
`nil` when every member succeeds (in particular for the empty composite);
when exactly one member fails it returns that member's error; when at least
one member fails, it returns the error of some failing member — never `nil`
and never an error no member returned. -/
theorem async_handle_first_observed_failure (results obs : List (Option Err))
    (hperm : obs.Perm results) :
    ((∀ e ∈ results, e = none) → Async.Handle obs = none)
    ∧ (∀ x, results.filterMap id = [x] → Async.Handle obs = some x)
    ∧ (results.filterMap id ≠ [] →
        ∃ x ∈ results.filterMap id, Async.Handle obs = some x) := by
  have hpf : (obs.filterMap id).Perm (results.filterMap id) := hperm.filterMap id
  rw [async_handle_eq_firstErr]
  refine ⟨fun hall => ?_, fun x hone => ?_, fun hne => ?_⟩
  · have : obs.filterMap id = [] := by
      rw [List.filterMap_eq_nil_iff]
      intro e he
      have := hall e (hperm.mem_iff.mp he)
      simp [this]
    simp [firstErr, this]
  · rw [hone] at hpf
    have := List.Perm.length_eq hpf
    simp only [List.length_cons, List.length_nil] at this
    obtain ⟨y, hy⟩ := List.length_eq_one.mp this
    rw [hy] at hpf
    have : y = x := by
      have hmem : y ∈ [x] := hpf.mem_iff.mp (by simp [hy])
      simpa using hmem
    simp [firstErr, hy, this]
  · have hne' : obs.filterMap id ≠ [] := by
      intro hnil
      have hlen := hpf.length_eq
      rw [hnil] at hlen
      simp only [List.length_nil] at hlen
      exact hne (List.eq_nil_of_length_eq_zero hlen.symm)
    cases hh : obs.filterMap id with
    | nil => exact absurd hh hne'
    | cons y ys =>
      refine ⟨y, ?_, by simp [firstErr, hh]⟩
      exact hpf.mem_iff.mp (by simp [hh])

/-- Witness for C5 at concrete completions: among results
`[nil, err 5, nil]` observed in the order `[nil, some 5, nil]` the single
failure `5` is returned, and with two failures `[some 4, some 5]` observed
as `[some 5, some 4]` the first observed failing completion `5` wins. -/
theorem async_handle_first_observed_failure_witness :
    Async.Handle [none, some 5, none] = some 5
    ∧ ∃ x ∈ ([some 4, some 5] : List (Option Err)).filterMap id,
        Async.Handle [some 5, some 4] = some x := by
  constructor
  · exact (async_handle_first_observed_failure [none, some 5, none]
      [none, some 5, none] (List.Perm.refl _)).2.1 5 (by decide)
  · exact (async_handle_first_observed_failure [some 4, some 5]
      [some 5, some 4] (by decide)).2.2 (by decide)

/-- The two branches of the `select` in Go `Limited.Handle`:
```
select {
case <-ctx.Done():
  return ctx.Err()
case sub.sem <- struct{}{}:
  defer func() { <-sub.sem }()
  return sub.subscriber.Handle(ctx, ev)
}
```
Which branch runs is the Go runtime's choice among the ready ones. -/
inductive Branch where
  | ctxDone
  | acquire
deriving DecidableEq, Repr

/-- One call of Go `Limited.Handle`, the select's committed branch made
explicit.  `cap` is the semaphore capacity (`make(chan struct{}, max)`),
`used` the number of tokens currently buffered in it; a send is ready iff
`used < cap`.  The result is `none` when the chosen branch is not ready
(the select could not commit to it).  On the done branch `ctx.Err()` is
returned and the wrapped subscriber is not touched; on the acquire branch
the token is sent (`used + 1`), the wrapped subscriber runs, and the
deferred receive takes the token back (`- 1`), the subscriber's error being
returned unchanged. -/
def Limited.Handle {σ : Type} (cap : Nat) (inner : Handler σ) (b : Branch)
    (ctx : Ctx) (ev : Event) (used : Nat) (s : σ) :
    Option ((Nat × σ) × Option Err) :=
  match b with
  | .ctxDone =>
    if ctx.cancelled then some ((used, s), some ctx.ctxErr) else none
  | .acquire =>
    if used < cap then
      let r := inner ctx ev s
      some ((used + 1 - 1, r.1), r.2)
    else none

/-- C6: when the cancellation signal fires before a permit is acquired
(the select commits to `ctx.Done()`), `Limited.Handle` returns the
cancellation error with the wrapped subscriber never invoked (its state and
the semaphore are untouched); on successful permit acquisition the wrapped
subscriber is invoked, its result is returned unchanged, and the permit is
released afterward — the semaphore occupancy is back to `used` whether the
wrapped subscriber succeeded or failed. -/
theorem limited_handle_cancel_or_acquire_release {σ : Type} (cap : Nat)
    (inner : Handler σ) (ctx : Ctx) (ev : Event) (used : Nat) (s : σ) :
    (ctx.cancelled = true →
      Limited.Handle cap inner Branch.ctxDone ctx ev used s
        = some ((used, s), some ctx.ctxErr))
    ∧ (used < cap →
      Limited.Handle cap inner Branch.acquire ctx ev used s
        = some ((used, (inner ctx ev s).1), (inner ctx ev s).2)) := by
  constructor
  · intro hc
    simp [Limited.Handle, hc]
  · intro hlt
    simp [Limited.Handle, hlt]

/-- Witness for C6: with capacity 2 and one permit taken, a call under a
cancelled context returns the cancellation error `3` leaving state and
semaphore untouched, and a call that acquires returns the inner failure `8`
with its state effect applied and the semaphore back at occupancy 1. -/
theorem limited_handle_cancel_or_acquire_release_witness :
    Limited.Handle (σ := Nat) 2 (fun _ _ s => (s + 10, some 8))
        Branch.ctxDone ⟨true, 3⟩ ⟨0, 0⟩ 1 0
      = some ((1, 0), some 3)
    ∧ Limited.Handle (σ := Nat) 2 (fun _ _ s => (s + 10, some 8))
        Branch.acquire ⟨false, 3⟩ ⟨0, 0⟩ 1 0
      = some ((1, 10), some 8) := by
  constructor
  · exact (limited_handle_cancel_or_acquire_release 2 (fun _ _ s => (s + 10, some 8))
      ⟨true, 3⟩ ⟨0, 0⟩ 1 0).1 rfl
  · exact (limited_handle_cancel_or_acquire_release 2 (fun _ _ s => (s + 10, some 8))
      ⟨false, 3⟩ ⟨0, 0⟩ 1 0).2 (by decide)

/-- The phase a caller of a shared `Limited` instance is in: still blocked
in the select, holding a permit with the wrapped subscriber executing, or
returned (on either path). -/
inductive CallerPhase where
  | idle
  | running
  | finished
deriving DecidableEq, Repr

/-- The shared state of one `Limited` instance under `m` concurrent
callers: each caller's phase plus the occupancy of the semaphore channel
`sem` (number of buffered tokens). -/
structure LimState where
  callers : List CallerPhase
  used : Nat
deriving DecidableEq, Repr

/-- The interleaved executions of `Limited.Handle` by the callers sharing
the instance.  `acquire`: the select of caller `i` commits to the semaphore
send — possible only when the channel has room (`used < cap`) — and the
wrapped subscriber starts.  `release`: caller `i`'s wrapped subscriber
returns and the deferred receive gives the token back.  `cancel`: caller
`i`'s select commits to `ctx.Done()`; it returns without ever acquiring. -/
inductive LimStep (cap : Nat) : LimState → LimState → Prop where
  | acquire (cs : List CallerPhase) (used i : Nat) (hi : i < cs.length)
      (hph : cs[i] = CallerPhase.idle) (hcap : used < cap) :
      LimStep cap ⟨cs, used⟩ ⟨cs.set i CallerPhase.running, used + 1⟩
  | release (cs : List CallerPhase) (used i : Nat) (hi : i < cs.length)
      (hph : cs[i] = CallerPhase.running) :
      LimStep cap ⟨cs, used⟩ ⟨cs.set i CallerPhase.finished, used - 1⟩
  | cancel (cs : List CallerPhase) (used i : Nat) (hi : i < cs.length)
      (hph : cs[i] = CallerPhase.idle) :
      LimStep cap ⟨cs, used⟩ ⟨cs.set i CallerPhase.finished, used⟩

/-- States reachable by `m` concurrent callers of a freshly constructed
`Limited` instance of capacity `cap` (`NewLimited`: empty semaphore). -/
def LimReachable (cap m : Nat) : LimState → Prop :=
  Relation.ReflTransGen (LimStep cap) ⟨List.replicate m CallerPhase.idle, 0⟩

/-- The number of invocations of the wrapped subscriber currently in
flight. -/
def inFlight (cs : List CallerPhase) : Nat :=
  cs.countP (fun c => c == CallerPhase.running)

/-- C8: in every state reachable by `m` concurrent callers of a `Limited`
instance of capacity `cap`, the semaphore occupancy equals the number of
in-flight invocations of the wrapped subscriber — every acquired permit is
held by exactly one in-flight invocation and is released when it finishes,
so when nothing is in flight the occupancy is back to 0 (no capacity is
lost) — and that number never exceeds `cap`. -/
theorem limited_concurrency_bound (cap m : Nat) (st : LimState)
    (h : LimReachable cap m st) :
    st.used = inFlight st.callers
    ∧ inFlight st.callers ≤ cap
    ∧ st.callers.length = m := by
  induction h with
  | refl =>
    refine ⟨?_, ?_, by simp⟩
    · simp only [inFlight]
      rw [List.countP_eq_zero.mpr]
      intro a ha
      rw [List.eq_of_mem_replicate ha]
      decide
    · simp only [inFlight]
      rw [List.countP_eq_zero.mpr]
      · exact Nat.zero_le cap
      intro a ha
      rw [List.eq_of_mem_replicate ha]
      decide
  | tail hsteps hstep ih =>
    obtain ⟨ihused, ihcap, ihlen⟩ := ih
    cases hstep with
    | acquire cs used i hi hph hcap =>
      simp only [inFlight] at ihused ihcap ⊢
      rw [List.countP_set _ _ _ _ hi, hph]
      simp only [List.length_set]
      simp only at ihused ihcap ihlen
      have e1 : (CallerPhase.idle == CallerPhase.running) = false := rfl
      have e2 : (CallerPhase.running == CallerPhase.running) = true := rfl
      rw [e1, e2]
      simp only [Bool.false_eq_true, if_false, if_true]
      exact ⟨by omega, by omega, ihlen⟩
    | release cs used i hi hph =>
      simp only [inFlight] at ihused ihcap ⊢
      rw [List.countP_set _ _ _ _ hi, hph]
      simp only [List.length_set]
      simp only at ihused ihcap ihlen
      have e1 : (CallerPhase.running == CallerPhase.running) = true := rfl
      have e2 : (CallerPhase.finished == CallerPhase.running) = false := rfl
      rw [e1, e2]
      simp only [Bool.false_eq_true, if_false, if_true]
      have hpos : 1 ≤ List.countP (fun c => c == CallerPhase.running) cs := by
        have := List.boole_getElem_le_countP (fun c => c == CallerPhase.running) cs i hi
        rw [hph] at this
        simpa using this
      exact ⟨by omega, by omega, ihlen⟩
    | cancel cs used i hi hph =>
      simp only [inFlight] at ihused ihcap ⊢
      rw [List.countP_set _ _ _ _ hi, hph]
      simp only [List.length_set]
      simp only at ihused ihcap ihlen
      have e1 : (CallerPhase.idle == CallerPhase.running) = false := rfl
      have e2 : (CallerPhase.finished == CallerPhase.running) = false := rfl
      rw [e1, e2]
      simp only [Bool.false_eq_true, if_false]
      exact ⟨by omega, by omega, ihlen⟩

/-- Witness for C8 at capacity 1 with 2 callers: after caller 0 acquires,
runs and releases, and caller 1 then acquires, the reached state
`⟨[finished, running], 1⟩` satisfies the invariant: occupancy 1 equals the
one in-flight invocation, which is within capacity. -/
theorem limited_concurrency_bound_witness :
    (⟨[CallerPhase.finished, CallerPhase.running], 1⟩ : LimState).used
        = inFlight (⟨[CallerPhase.finished, CallerPhase.running], 1⟩ : LimState).callers
    ∧ inFlight (⟨[CallerPhase.finished, CallerPhase.running], 1⟩ : LimState).callers ≤ 1
    ∧ (⟨[CallerPhase.finished, CallerPhase.running], 1⟩ : LimState).callers.length = 2 := by
  apply limited_concurrency_bound 1 2
  have step1 : LimStep 1 ⟨[CallerPhase.idle, CallerPhase.idle], 0⟩
      ⟨[CallerPhase.running, CallerPhase.idle], 1⟩ :=
    LimStep.acquire [CallerPhase.idle, CallerPhase.idle] 0 0 (by decide) rfl (by decide)
  have step2 : LimStep 1 ⟨[CallerPhase.running, CallerPhase.idle], 1⟩
      ⟨[CallerPhase.finished, CallerPhase.idle], 0⟩ :=
    LimStep.release [CallerPhase.running, CallerPhase.idle] 1 0 (by decide) rfl
  have step3 : LimStep 1 ⟨[CallerPhase.finished, CallerPhase.idle], 0⟩
      ⟨[CallerPhase.finished, CallerPhase.running], 1⟩ :=
    LimStep.acquire [CallerPhase.finished, CallerPhase.idle] 0 1 (by decide) rfl (by decide)
  exact Relation.ReflTransGen.tail
    (Relation.ReflTransGen.tail (Relation.ReflTransGen.tail Relation.ReflTransGen.refl step1)
      step2) step3

end EventGo
